import Mathlib

/-!
Verification of the heimdall entity fetcher
(`src/polygon/heimdall/entity_fetcher.go`) and the `Withdrawal` JSON codec
(`src/unnamed/part_000`).

The fetcher is embedded shallowly: the three injected collaborator
functions become pure Lean functions (errors via `Except`), the unbounded
pagination loop takes explicit fuel, and each operation additionally
returns the trace of collaborator calls it issued so that call-sequence
properties can be stated.  Machine integers (`uint64`, `int64`) are `Nat`
and `Int` with explicit reduction modulo `2^64` at the places where the Go
code converts or subtracts.
-/

namespace EntityFetcher

/-- `ClosedRange` from the heimdall package: an inclusive `[Start, End]`
interval of entity ids.  The struct itself is not under `src/`; spec §3:
"`{Start, End}`, both inclusive positive integers; invariant
`Start ≤ End`". -/
structure ClosedRange where
  Start : Nat
  End : Nat
deriving DecidableEq, Repr

/-- Modelled from the spec: `ClosedRange.Len`, "`Len() = End - Start + 1`"
(the method is not under `src/`).  Faithful to the Go `uint64` arithmetic
whenever the spec invariant `Start ≤ End < 2^64` holds. -/
def ClosedRange.Len (r : ClosedRange) : Nat := r.End - r.Start + 1

/-- Go `uint64(x)` conversion of an `int64` value (two's complement):
reduction modulo `2^64`, mapping negatives `i` to `i + 2^64`. -/
def uint64OfInt64 (i : Int) : Nat := (i % (2 ^ 64 : Int)).toNat

/-- Go `int64(x)` conversion of a `uint64` value (two's complement):
values at least `2^63` become negative. -/
def int64OfUint64 (n : Nat) : Int :=
  if n % 2 ^ 64 < 2 ^ 63 then (n % 2 ^ 64 : Int) else (n % 2 ^ 64 : Int) - 2 ^ 64

/-- Go `uint64` subtraction `a - b` (wraparound modulo `2^64`),
for `a b < 2^64`. -/
def sub64 (a b : Nat) : Nat := (a + 2 ^ 64 - b) % 2 ^ 64

/-- Go `uint64` addition `a + b` (wraparound modulo `2^64`). -/
def add64 (a b : Nat) : Nat := (a + b) % 2 ^ 64

/-- Go slice expression `xs[lo:hi]`: defined (as `some`) exactly when
`lo ≤ hi ≤ len(xs)`, otherwise the evaluation panics (`none`). -/
def goSlice (xs : List α) (lo hi : Nat) : Option (List α) :=
  if lo ≤ hi ∧ hi ≤ xs.length then some ((xs.drop lo).take (hi - lo)) else none

/-- Outcome of a fetcher operation: a successful entity list, a
collaborator error propagated as-is, an out-of-bounds slice (a Go runtime
panic, not an error value), or fuel exhaustion (a modelling artifact of
the unbounded pagination loop). -/
inductive FetchOutcome (ε α : Type) where
  | ok (entities : List α)
  | err (e : ε)
  | outOfBounds
  | noFuel
deriving DecidableEq, Repr

/-- Convert a Go `([]TEntity, error)` style result into an outcome. -/
def FetchOutcome.ofExcept : Except ε (List α) → FetchOutcome ε α
  | .ok xs => .ok xs
  | .error e => .err e

/-- `entityFetcherImpl` from `entity_fetcher.go`: the three injected
collaborator functions.  `fetchEntity` takes an `int64` id (`Int`);
`fetchEntitiesPage` takes a page number and a limit and is optional
(`nil` in Go). -/
structure EntityFetcherImpl (ε α : Type) where
  fetchLastEntityId : Int × Option ε
  fetchEntity : Int → Except ε α
  fetchEntitiesPage : Option (Nat → Nat → Except ε (List α))

/-- `FetchLastEntityId` from `entity_fetcher.go`:
`id, err := f.fetchLastEntityId(ctx); return uint64(id), err` — the
converted id is returned alongside the error, whatever the error is. -/
def FetchLastEntityId (f : EntityFetcherImpl ε α) : Nat × Option ε :=
  (uint64OfInt64 f.fetchLastEntityId.1, f.fetchLastEntityId.2)

/-- The call `f.fetchEntity(ctx, int64(id))` made for a `uint64` id. -/
def fetchEntityAt (f : EntityFetcherImpl ε α) (id : Nat) : Except ε α :=
  f.fetchEntity (int64OfUint64 id)

/-- Modelled from the spec: the loop body of `ClosedRangeMap` (the helper
is not under `src/`): "for each id from `range.Start` to `range.End`
ascending, call fetch-entity-by-id; on the first failure, abort and
return that error immediately — no partial result".  `n` counts the ids
still to visit, `s` is the next id.  The first component is the trace of
ids actually fetched. -/
def closedRangeMapGo (g : Nat → Except ε α) : Nat → Nat → List Nat × Except ε (List α)
  | 0, _ => ([], .ok [])
  | n + 1, s =>
    match g s with
    | .error e => ([s], .error e)
    | .ok a =>
      let p := closedRangeMapGo g n (s + 1)
      (s :: p.1, p.2.map fun xs => a :: xs)

/-- Modelled from the spec: `ClosedRangeMap range f` (not under `src/`)
maps `f` over the ids `range.Start .. range.End` in ascending order,
aborting on the first error. -/
def ClosedRangeMap (r : ClosedRange) (g : Nat → Except ε α) : Except ε (List α) :=
  (closedRangeMapGo g r.Len r.Start).2

/-- `FetchEntitiesRangeSequentially` from `entity_fetcher.go`:
`ClosedRangeMap(idRange, func(id uint64) { return f.fetchEntity(ctx, int64(id)) })`. -/
def FetchEntitiesRangeSequentially (f : EntityFetcherImpl ε α) (r : ClosedRange) :
    Except ε (List α) :=
  ClosedRangeMap r (fetchEntityAt f)

/-- The ids for which `FetchEntitiesRangeSequentially` issues a
fetch-entity-by-id call, in call order. -/
def fetchSeqTrace (f : EntityFetcherImpl ε α) (r : ClosedRange) : List Nat :=
  (closedRangeMapGo (fetchEntityAt f) r.Len r.Start).1

/-- The pagination loop of `FetchAllEntities`: starting at page `p`,
request `fp page 10_000`; an error aborts with that error, an empty page
terminates, a non-empty page is appended and the loop continues with the
next page.  `fuel` bounds the number of iterations (the Go loop is
unbounded); the first component is the trace of `(page, limit)` requests
issued. -/
def fetchAllGo (fp : Nat → Nat → Except ε (List α)) :
    Nat → Nat → List (Nat × Nat) × FetchOutcome ε α
  | 0, _ => ([], .noFuel)
  | fuel + 1, page =>
    match fp page 10000 with
    | .error e => ([(page, 10000)], .err e)
    | .ok entitiesPage =>
      if entitiesPage.length = 0 then ([(page, 10000)], .ok [])
      else
        let p := fetchAllGo fp fuel (page + 1)
        ((page, 10000) :: p.1,
         match p.2 with
         | .ok rest => .ok (entitiesPage ++ rest)
         | o => o)

/-- The comparator of `FetchAllEntities`:
`cmp.Compare(e1.BlockNumRange().Start, e2.BlockNumRange().Start)` induces
the total preorder "start of `e1` at most start of `e2`".  `bnr` is the
`BlockNumRange()` capability of the entity type. -/
def entityLE (bnr : α → ClosedRange) (e1 e2 : α) : Prop :=
  (bnr e1).Start ≤ (bnr e2).Start

instance (bnr : α → ClosedRange) : DecidableRel (entityLE bnr) :=
  fun e1 e2 => Nat.decLe (bnr e1).Start (bnr e2).Start

/-- The `slices.SortFunc` call of `FetchAllEntities` with the source's
comparator.  The Go sorting algorithm (an unstable pdqsort, Go runtime
internals) is abstracted by a sorting algorithm producing an
ascending-by-start permutation of the input. -/
def sortEntities (bnr : α → ClosedRange) (xs : List α) : List α :=
  List.insertionSort (entityLE bnr) xs

/-- `FetchAllEntities` from `entity_fetcher.go`: run the pagination loop
from page 1 and, on success, sort the accumulated entities ascending by
`BlockNumRange().Start`.  Returns the `(page, limit)` request trace and
the outcome. -/
def FetchAllEntities (bnr : α → ClosedRange) (fp : Nat → Nat → Except ε (List α))
    (fuel : Nat) : List (Nat × Nat) × FetchOutcome ε α :=
  match fetchAllGo fp fuel 1 with
  | (tr, .ok entities) => (tr, .ok (sortEntities bnr entities))
  | p => p

/-- A run of `FetchEntitiesRange`: the `(page, limit)` requests issued to
`fetchEntitiesPage`, the ids requested from `fetchEntity`, and the
outcome. -/
structure FetchRun (ε α : Type) where
  pageCalls : List (Nat × Nat)
  idCalls : List Nat
  outcome : FetchOutcome ε α
deriving DecidableEq, Repr

/-- The sequential branch of `FetchEntitiesRange` as a run. -/
def seqRun (f : EntityFetcherImpl ε α) (r : ClosedRange) : FetchRun ε α :=
  ⟨[], fetchSeqTrace f r, .ofExcept (FetchEntitiesRangeSequentially f r)⟩

/-- The bulk branch of `FetchEntitiesRange`: fetch everything via
`FetchAllEntities` and, on success, return the Go slice
`allEntities[startIndex : startIndex+count]` with
`startIndex := idRange.Start - 1` and `count := idRange.Len()` (`uint64`
arithmetic); an error from the full fetch is propagated unchanged. -/
def bulkRun (bnr : α → ClosedRange) (fp : Nat → Nat → Except ε (List α))
    (r : ClosedRange) (fuel : Nat) : FetchRun ε α :=
  match FetchAllEntities bnr fp fuel with
  | (tr, .ok allEntities) =>
    match goSlice allEntities (sub64 r.Start 1) (add64 (sub64 r.Start 1) r.Len) with
    | some xs => ⟨tr, [], .ok xs⟩
    | none => ⟨tr, [], .outOfBounds⟩
  | (tr, o) => ⟨tr, [], o⟩

/-- `FetchEntitiesRange` from `entity_fetcher.go`: if
`idRange.Len() > 100` (the `batchFetchThreshold`) and `fetchEntitiesPage`
is configured, take the bulk branch (`bulkRun`); otherwise fall back to
`FetchEntitiesRangeSequentially`. -/
def FetchEntitiesRangeRun (f : EntityFetcherImpl ε α) (bnr : α → ClosedRange)
    (r : ClosedRange) (fuel : Nat) : FetchRun ε α :=
  if 100 < r.Len then
    match f.fetchEntitiesPage with
    | some fp => bulkRun bnr fp r fuel
    | none => seqRun f r
  else seqRun f r

/-- The `([]TEntity, error)`-level result of `FetchEntitiesRange`. -/
def FetchEntitiesRange (f : EntityFetcherImpl ε α) (bnr : α → ClosedRange)
    (r : ClosedRange) (fuel : Nat) : FetchOutcome ε α :=
  (FetchEntitiesRangeRun f bnr r fuel).outcome

namespace Proofs

/-- Evaluation of the sequential loop when every visited id succeeds:
the trace is `[s, s+1, …, s+n-1]` and the results line up with the ids. -/
theorem closedRangeMapGo_ok (g : Nat → Except ε α) (res : Nat → α) :
    ∀ n s, (∀ i, s ≤ i → i < s + n → g i = .ok (res i)) →
      closedRangeMapGo g n s = (List.range' s n, .ok ((List.range' s n).map res)) := by
  intro n
  induction n with
  | zero => intro s _; rfl
  | succ m ih =>
    intro s hok
    have h0 : g s = .ok (res s) := hok s le_rfl (by omega)
    have ihs := ih (s + 1) (fun i hi1 hi2 => hok i (by omega) (by omega))
    simp [closedRangeMapGo, h0, ihs, List.range', Except.map]

/-- Evaluation of the sequential loop when id `k` is the first failure:
ids after `k` are not visited and the error is returned as-is. -/
theorem closedRangeMapGo_err (g : Nat → Except ε α) (res : Nat → α) (e : ε) :
    ∀ n s k, s ≤ k → k < s + n →
      (∀ i, s ≤ i → i < k → g i = .ok (res i)) → g k = .error e →
      closedRangeMapGo g n s = (List.range' s (k - s + 1), .error e) := by
  intro n
  induction n with
  | zero => intro s k h1 h2 _ _; omega
  | succ m ih =>
    intro s k h1 h2 hok herr
    rcases Nat.eq_or_lt_of_le h1 with heq | hlt
    · subst heq
      simp [closedRangeMapGo, herr, Nat.sub_self, List.range']
    · have h0 : g s = .ok (res s) := hok s le_rfl hlt
      have ihs := ih (s + 1) k (by omega) (by omega)
        (fun i hi1 hi2 => hok i (by omega) hi2) herr
      have hks : k - s + 1 = (k - (s + 1) + 1) + 1 := by omega
      rw [hks]
      simp [closedRangeMapGo, h0, ihs, List.range', Except.map]

/-- **C3.** For every `ClosedRange` `R` with `Len(R) ≤ 100` — and for any
`R` when no bulk-page collaborator is configured — `FetchEntitiesRange`
issues no page request, performs exactly `Len(R)` fetch-entity-by-id
calls, one per id from `R.Start` to `R.End` in strictly ascending order
(the trace is `[Start, Start+1, …, End]`), and on success returns the
results in that exact order, one-to-one with the requested ids. -/
theorem fetchRange_small_sequential_calls (f : EntityFetcherImpl ε α)
    (bnr : α → ClosedRange) (r : ClosedRange) (fuel : Nat) (res : Nat → α)
    (hbranch : r.Len ≤ 100 ∨ f.fetchEntitiesPage = none)
    (hwf : r.Start ≤ r.End)
    (hok : ∀ i, r.Start ≤ i → i ≤ r.End → fetchEntityAt f i = .ok (res i)) :
    (FetchEntitiesRangeRun f bnr r fuel).pageCalls = [] ∧
    (FetchEntitiesRangeRun f bnr r fuel).idCalls = List.range' r.Start r.Len ∧
    (FetchEntitiesRangeRun f bnr r fuel).idCalls.length = r.Len ∧
    (FetchEntitiesRangeRun f bnr r fuel).outcome =
      .ok ((List.range' r.Start r.Len).map res) := by
  have hLen : r.Len = r.End - r.Start + 1 := rfl
  have hseq : FetchEntitiesRangeRun f bnr r fuel = seqRun f r := by
    unfold FetchEntitiesRangeRun
    rcases hbranch with hb | hb
    · rw [if_neg (by omega)]
    · by_cases hc : 100 < r.Len
      · rw [if_pos hc, hb]
      · rw [if_neg hc]
  have hgo := closedRangeMapGo_ok (fetchEntityAt f) res r.Len r.Start
    (fun i hi1 hi2 => hok i hi1 (by omega))
  refine ⟨?_, ?_, ?_, ?_⟩ <;>
    simp [hseq, seqRun, fetchSeqTrace, FetchEntitiesRangeSequentially,
      ClosedRangeMap, hgo, FetchOutcome.ofExcept]

/-- Witness for C3: the range `[2, 4]` against a collaborator returning
each id, with no bulk collaborator configured. -/
theorem fetchRange_small_sequential_calls_witness :
    (FetchEntitiesRangeRun
        (⟨(0, none), fun i => .ok i.toNat, none⟩ : EntityFetcherImpl Unit Nat)
        (fun n => ⟨n, n⟩) ⟨2, 4⟩ 5).idCalls = [2, 3, 4] ∧
    (FetchEntitiesRangeRun
        (⟨(0, none), fun i => .ok i.toNat, none⟩ : EntityFetcherImpl Unit Nat)
        (fun n => ⟨n, n⟩) ⟨2, 4⟩ 5).outcome = .ok [2, 3, 4] := by
  have h := fetchRange_small_sequential_calls
    (⟨(0, none), fun i => .ok i.toNat, none⟩ : EntityFetcherImpl Unit Nat)
    (fun n => ⟨n, n⟩) ⟨2, 4⟩ 5 (fun i => i) (Or.inr rfl) (by decide)
    (by
      intro i h1 h2
      have h1' : 2 ≤ i := h1
      have h2' : i ≤ 4 := h2
      rcases (by omega : i = 2 ∨ i = 3 ∨ i = 4) with rfl | rfl | rfl <;> rfl)
  refine ⟨?_, ?_⟩
  · rw [h.2.1]; rfl
  · rw [h.2.2.2]; rfl

/-- **C4.** If the fetch-entity-by-id call fails at id `k` inside the
range while all earlier ids succeeded, `FetchEntitiesRangeSequentially`
issues no fetch for any id after `k` (the trace is exactly
`[Start, …, k]`), returns that error unmodified, and returns no partial
result. -/
theorem fetchSequentially_stops_at_first_error (f : EntityFetcherImpl ε α)
    (r : ClosedRange) (k : Nat) (e : ε) (res : Nat → α)
    (hk1 : r.Start ≤ k) (hk2 : k ≤ r.End)
    (hok : ∀ i, r.Start ≤ i → i < k → fetchEntityAt f i = .ok (res i))
    (herr : fetchEntityAt f k = .error e) :
    FetchEntitiesRangeSequentially f r = .error e ∧
    fetchSeqTrace f r = List.range' r.Start (k - r.Start + 1) ∧
    ∀ j ∈ fetchSeqTrace f r, j ≤ k := by
  have hLen : r.Len = r.End - r.Start + 1 := rfl
  have hgo := closedRangeMapGo_err (fetchEntityAt f) res e r.Len r.Start k hk1
    (by omega) hok herr
  refine ⟨?_, ?_, ?_⟩
  · simp [FetchEntitiesRangeSequentially, ClosedRangeMap, hgo]
  · simp [fetchSeqTrace, hgo]
  · intro j hj
    simp only [fetchSeqTrace, hgo, List.mem_range'_1] at hj
    omega

/-- Witness for C4: the range `[2, 5]` against a collaborator failing at
id 3: ids 4 and 5 are never fetched, the error comes back as-is. -/
theorem fetchSequentially_stops_at_first_error_witness :
    FetchEntitiesRangeSequentially
        (⟨(0, none), fun i => if i = 3 then .error () else .ok i.toNat,
          none⟩ : EntityFetcherImpl Unit Nat) ⟨2, 5⟩ = .error () ∧
    fetchSeqTrace
        (⟨(0, none), fun i => if i = 3 then .error () else .ok i.toNat,
          none⟩ : EntityFetcherImpl Unit Nat) ⟨2, 5⟩ = [2, 3] := by
  have h := fetchSequentially_stops_at_first_error
    (⟨(0, none), fun i => if i = 3 then .error () else .ok i.toNat,
      none⟩ : EntityFetcherImpl Unit Nat) ⟨2, 5⟩ 3 () (fun i => i)
    (by decide) (by decide)
    (by
      intro i h1 h2
      have h1' : 2 ≤ i := h1
      rcases (by omega : i = 2) with rfl
      rfl)
    rfl
  exact ⟨h.1, by rw [h.2.1]; rfl⟩

/-- Evaluation of the pagination loop when pages `p, …, p+m-1` are
non-empty and page `p+m` is the first empty page: exactly the requests
`(p, 10000), …, (p+m, 10000)` are issued and the accumulated entities are
the concatenation of the non-empty pages in page order. -/
theorem fetchAllGo_ok (fp : Nat → Nat → Except ε (List α)) (pages : Nat → List α) :
    ∀ m p fuel,
      (∀ j, p ≤ j → j < p + m → fp j 10000 = .ok (pages j) ∧ pages j ≠ []) →
      fp (p + m) 10000 = .ok [] → m + 1 ≤ fuel →
      fetchAllGo fp fuel p =
        ((List.range' p (m + 1)).map (fun q => (q, 10000)),
          .ok ((List.range' p m).map pages).flatten) := by
  intro m
  induction m with
  | zero =>
    intro p fuel _ hempty hfuel
    obtain ⟨fl, rfl⟩ : ∃ fl, fuel = fl + 1 := ⟨fuel - 1, by omega⟩
    rw [Nat.add_zero] at hempty
    simp [fetchAllGo, hempty, List.range']
  | succ m ih =>
    intro p fuel hok hempty hfuel
    obtain ⟨fl, rfl⟩ : ∃ fl, fuel = fl + 1 := ⟨fuel - 1, by omega⟩
    obtain ⟨hp, hpne⟩ := hok p le_rfl (by omega)
    have ihs := ih (p + 1) fl (fun j hj1 hj2 => hok j (by omega) (by omega))
      (by rw [show p + 1 + m = p + (m + 1) by omega]; exact hempty) (by omega)
    have hlen : ¬(pages p).length = 0 := by
      simpa [List.length_eq_zero] using hpne
    simp [fetchAllGo, hp, hlen, ihs, List.range']

/-- Evaluation of the pagination loop when pages `p, …, p+m-1` are
non-empty and the request for page `p+m` fails: the loop stops there and
the error is returned as-is, with nothing accumulated. -/
theorem fetchAllGo_err (fp : Nat → Nat → Except ε (List α)) (pages : Nat → List α)
    (e : ε) :
    ∀ m p fuel,
      (∀ j, p ≤ j → j < p + m → fp j 10000 = .ok (pages j) ∧ pages j ≠ []) →
      fp (p + m) 10000 = .error e → m + 1 ≤ fuel →
      fetchAllGo fp fuel p =
        ((List.range' p (m + 1)).map (fun q => (q, 10000)), .err e) := by
  intro m
  induction m with
  | zero =>
    intro p fuel _ herr hfuel
    obtain ⟨fl, rfl⟩ : ∃ fl, fuel = fl + 1 := ⟨fuel - 1, by omega⟩
    rw [Nat.add_zero] at herr
    simp [fetchAllGo, herr, List.range']
  | succ m ih =>
    intro p fuel hok herr hfuel
    obtain ⟨fl, rfl⟩ : ∃ fl, fuel = fl + 1 := ⟨fuel - 1, by omega⟩
    obtain ⟨hp, hpne⟩ := hok p le_rfl (by omega)
    have ihs := ih (p + 1) fl (fun j hj1 hj2 => hok j (by omega) (by omega))
      (by rw [show p + 1 + m = p + (m + 1) by omega]; exact herr) (by omega)
    have hlen : ¬(pages p).length = 0 := by
      simpa [List.length_eq_zero] using hpne
    simp [fetchAllGo, hp, hlen, ihs, List.range']

/-- **C5.** If pages `1, …, k-1` are non-empty and page `k` is the first
page for which fetch-page returns an empty sequence, then
`FetchAllEntities` requests exactly the pages `1, 2, …, k` in that order,
each with limit 10,000, issues no request after the empty page, and the
loop terminates successfully. -/
theorem fetchAll_pages_exact (bnr : α → ClosedRange)
    (fp : Nat → Nat → Except ε (List α)) (pages : Nat → List α) (k fuel : Nat)
    (hk : 1 ≤ k) (hfuel : k ≤ fuel)
    (hok : ∀ j, 1 ≤ j → j < k → fp j 10000 = .ok (pages j) ∧ pages j ≠ [])
    (hempty : fp k 10000 = .ok []) :
    (FetchAllEntities bnr fp fuel).1 = (List.range' 1 k).map (fun q => (q, 10000)) ∧
    ∃ out, (FetchAllEntities bnr fp fuel).2 = .ok out := by
  obtain ⟨m, rfl⟩ : ∃ m, k = m + 1 := ⟨k - 1, by omega⟩
  have hgo := fetchAllGo_ok fp pages m 1 fuel (fun j hj1 hj2 => hok j hj1 (by omega))
    (by rw [show 1 + m = m + 1 by omega]; exact hempty) (by omega)
  constructor
  · simp [FetchAllEntities, hgo]
  · exact ⟨sortEntities bnr ((List.range' 1 m).map pages).flatten,
      by simp [FetchAllEntities, hgo]⟩

/-- Witness for C5: two pages, the second empty: requests are exactly
`(1, 10000), (2, 10000)`. -/
theorem fetchAll_pages_exact_witness :
    (FetchAllEntities (fun n : Nat => ⟨n, n⟩)
        (fun page _ => if page = 1 then .ok [7, 3] else .ok []
          : Nat → Nat → Except Unit (List Nat)) 9).1 =
      [(1, 10000), (2, 10000)] := by
  have h := fetchAll_pages_exact (fun n : Nat => ⟨n, n⟩)
    (fun page _ => if page = 1 then .ok [7, 3] else .ok []
      : Nat → Nat → Except Unit (List Nat))
    (fun _ => [7, 3]) 2 9 (by decide) (by decide)
    (by
      intro j hj1 hj2
      have hj1' : 1 ≤ j := hj1
      have hj2' : j < 2 := hj2
      rcases (by omega : j = 1) with rfl
      exact ⟨rfl, by decide⟩)
    rfl
  rw [h.1]; rfl

/-- **C6.** If pages `1, …, k-1` succeed non-empty and the request for
page `k` fails, `FetchAllEntities` returns that error unmodified and no
entity list: nothing accumulated from pages `1, …, k-1` appears in any
output. -/
theorem fetchAll_error_discards (bnr : α → ClosedRange)
    (fp : Nat → Nat → Except ε (List α)) (pages : Nat → List α) (k fuel : Nat)
    (e : ε) (hk : 1 ≤ k) (hfuel : k ≤ fuel)
    (hok : ∀ j, 1 ≤ j → j < k → fp j 10000 = .ok (pages j) ∧ pages j ≠ [])
    (herr : fp k 10000 = .error e) :
    FetchAllEntities bnr fp fuel =
      ((List.range' 1 k).map (fun q => (q, 10000)), .err e) := by
  obtain ⟨m, rfl⟩ : ∃ m, k = m + 1 := ⟨k - 1, by omega⟩
  have hgo := fetchAllGo_err fp pages e m 1 fuel
    (fun j hj1 hj2 => hok j hj1 (by omega))
    (by rw [show 1 + m = m + 1 by omega]; exact herr) (by omega)
  simp [FetchAllEntities, hgo]

/-- Witness for C6: the first page succeeds, the second fails: the error
is returned and the entities of page 1 are discarded. -/
theorem fetchAll_error_discards_witness :
    FetchAllEntities (fun n : Nat => ⟨n, n⟩)
        (fun page _ => if page = 1 then .ok [7, 3] else .error ()) 9 =
      ([(1, 10000), (2, 10000)], .err ()) := by
  have h := fetchAll_error_discards (fun n : Nat => ⟨n, n⟩)
    (fun page _ => if page = 1 then .ok [7, 3] else .error ())
    (fun _ => [7, 3]) 2 9 () (by decide) (by decide)
    (by
      intro j hj1 hj2
      have hj1' : 1 ≤ j := hj1
      have hj2' : j < 2 := hj2
      rcases (by omega : j = 1) with rfl
      exact ⟨rfl, by decide⟩)
    rfl
  rw [h]; rfl

/-- **C7.** On success, the sequence returned by `FetchAllEntities` is a
permutation of the concatenation of all non-empty pages returned before
the terminating empty page (no duplicates added, no omissions) and is
sorted ascending by each entity's `BlockNumRange().Start`, the comparator
considering only the start value. -/
theorem fetchAll_sorted_permutation (bnr : α → ClosedRange)
    (fp : Nat → Nat → Except ε (List α)) (pages : Nat → List α) (k fuel : Nat)
    (hk : 1 ≤ k) (hfuel : k ≤ fuel)
    (hok : ∀ j, 1 ≤ j → j < k → fp j 10000 = .ok (pages j) ∧ pages j ≠ [])
    (hempty : fp k 10000 = .ok []) :
    ∃ out, (FetchAllEntities bnr fp fuel).2 = .ok out ∧
      out.Perm ((List.range' 1 (k - 1)).map pages).flatten ∧
      out.Pairwise (fun e1 e2 => (bnr e1).Start ≤ (bnr e2).Start) := by
  obtain ⟨m, rfl⟩ : ∃ m, k = m + 1 := ⟨k - 1, by omega⟩
  have hgo := fetchAllGo_ok fp pages m 1 fuel (fun j hj1 hj2 => hok j hj1 (by omega))
    (by rw [show 1 + m = m + 1 by omega]; exact hempty) (by omega)
  refine ⟨sortEntities bnr ((List.range' 1 m).map pages).flatten,
    by simp [FetchAllEntities, hgo], ?_, ?_⟩
  · exact List.perm_insertionSort _ _
  · haveI t1 : IsTotal α (entityLE bnr) := ⟨fun a b => Nat.le_total _ _⟩
    haveI t2 : IsTrans α (entityLE bnr) := ⟨fun a b c => Nat.le_trans⟩
    exact @List.sorted_insertionSort α (entityLE bnr) _ t1 t2 _

/-- Witness for C7: one unsorted page `[7, 3]` whose entities end up
sorted by start. -/
theorem fetchAll_sorted_permutation_witness :
    ∃ out, (FetchAllEntities (fun n : Nat => ⟨n, n⟩)
        (fun page _ => if page = 1 then .ok [7, 3] else .ok []
          : Nat → Nat → Except Unit (List Nat)) 9).2 =
      .ok out ∧ out.Perm [7, 3] ∧
      out.Pairwise (fun e1 e2 : Nat => e1 ≤ e2) := by
  have h := fetchAll_sorted_permutation (fun n : Nat => ⟨n, n⟩)
    (fun page _ => if page = 1 then .ok [7, 3] else .ok []
      : Nat → Nat → Except Unit (List Nat))
    (fun _ => [7, 3]) 2 9 (by decide) (by decide)
    (by
      intro j hj1 hj2
      have hj1' : 1 ≤ j := hj1
      have hj2' : j < 2 := hj2
      rcases (by omega : j = 1) with rfl
      exact ⟨rfl, by decide⟩)
    rfl
  obtain ⟨out, h1, h2, h3⟩ := h
  refine ⟨out, h1, ?_, h3⟩
  simpa using h2

/-- Any successful result of `FetchAllEntities` is sorted ascending by
`BlockNumRange().Start` (it went through the final `slices.SortFunc`). -/
theorem fetchAllEntities_ok_pairwise (bnr : α → ClosedRange)
    (fp : Nat → Nat → Except ε (List α)) (fuel : Nat) (tr : List (Nat × Nat))
    (allE : List α)
    (hall : FetchAllEntities bnr fp fuel = (tr, .ok allE)) :
    allE.Pairwise (fun e1 e2 => (bnr e1).Start ≤ (bnr e2).Start) := by
  unfold FetchAllEntities at hall
  rcases hgo : fetchAllGo fp fuel 1 with ⟨tr2, out⟩
  rw [hgo] at hall
  cases out with
  | ok es =>
    simp only [Prod.mk.injEq, FetchOutcome.ok.injEq] at hall
    rw [← hall.2]
    haveI t1 : IsTotal α (entityLE bnr) := ⟨fun a b => Nat.le_total _ _⟩
    haveI t2 : IsTrans α (entityLE bnr) := ⟨fun a b c => Nat.le_trans⟩
    exact @List.sorted_insertionSort α (entityLE bnr) _ t1 t2 _
  | err e => simp at hall
  | outOfBounds => simp at hall
  | noFuel => simp at hall

/-- Evaluation of the bulk branch of `FetchEntitiesRange`: when the range
is over the threshold, the page collaborator is configured and the full
fetch succeeds with `allE`, the returned value is the positional Go slice
`allE[Start-1 : Start-1+Len]` — in bounds it is `drop (Start-1)` then
`take Len`, out of bounds the slice panics (no error value). -/
theorem fetchRange_bulk_eval (f : EntityFetcherImpl ε α) (bnr : α → ClosedRange)
    (r : ClosedRange) (fuel : Nat) (fp : Nat → Nat → Except ε (List α))
    (tr : List (Nat × Nat)) (allE : List α)
    (hfp : f.fetchEntitiesPage = some fp) (hlen : 100 < r.Len)
    (h1 : 1 ≤ r.Start) (h2 : r.Start ≤ r.End) (h3 : r.End < 2 ^ 64)
    (hall : FetchAllEntities bnr fp fuel = (tr, .ok allE)) :
    (r.Start - 1 + r.Len ≤ allE.length →
      FetchEntitiesRange f bnr r fuel =
        .ok ((allE.drop (r.Start - 1)).take r.Len)) ∧
    (allE.length < r.Start - 1 + r.Len →
      FetchEntitiesRange f bnr r fuel = .outOfBounds) := by
  have hLen : r.Len = r.End - r.Start + 1 := rfl
  have hsub : sub64 r.Start 1 = r.Start - 1 := by unfold sub64; omega
  have hadd : add64 (r.Start - 1) r.Len = r.Start - 1 + r.Len := by
    unfold add64; omega
  have hrun0 : FetchEntitiesRangeRun f bnr r fuel = bulkRun bnr fp r fuel := by
    unfold FetchEntitiesRangeRun
    rw [if_pos hlen, hfp]
  have hrun : FetchEntitiesRangeRun f bnr r fuel =
      match goSlice allE (r.Start - 1) (r.Start - 1 + r.Len) with
      | some xs => ⟨tr, [], .ok xs⟩
      | none => ⟨tr, [], .outOfBounds⟩ := by
    rw [hrun0]
    unfold bulkRun
    rw [hall, hsub, hadd]
  constructor
  · intro hle
    have hslice : goSlice allE (r.Start - 1) (r.Start - 1 + r.Len) =
        some ((allE.drop (r.Start - 1)).take r.Len) := by
      unfold goSlice
      rw [if_pos ⟨by omega, hle⟩, Nat.add_sub_cancel_left]
    rw [hslice] at hrun
    unfold FetchEntitiesRange
    rw [hrun]
  · intro hgt
    have hslice : goSlice allE (r.Start - 1) (r.Start - 1 + r.Len) = none := by
      unfold goSlice
      rw [if_neg]
      rintro ⟨-, hb⟩
      omega
    rw [hslice] at hrun
    unfold FetchEntitiesRange
    rw [hrun]

/-- **C2.** `FetchEntitiesRange` performs no validation of the
bulk-slicing precondition: when the successfully fetched, sorted
collection has at least `R.Start-1+Len(R)` elements the positional slice
is within bounds and the operation cannot fail on it, and when the
precondition is violated the unchecked slice is out of bounds — a panic,
not a returned error value. -/
theorem fetchRange_slice_unchecked (f : EntityFetcherImpl ε α)
    (bnr : α → ClosedRange) (r : ClosedRange) (fuel : Nat)
    (fp : Nat → Nat → Except ε (List α)) (tr : List (Nat × Nat)) (allE : List α)
    (hfp : f.fetchEntitiesPage = some fp) (hlen : 100 < r.Len)
    (h1 : 1 ≤ r.Start) (h2 : r.Start ≤ r.End) (h3 : r.End < 2 ^ 64)
    (hall : FetchAllEntities bnr fp fuel = (tr, .ok allE)) :
    (r.Start - 1 + r.Len ≤ allE.length →
      FetchEntitiesRange f bnr r fuel =
        .ok ((allE.drop (r.Start - 1)).take r.Len) ∧
      ∀ e : ε, FetchEntitiesRange f bnr r fuel ≠ .err e) ∧
    (allE.length < r.Start - 1 + r.Len →
      FetchEntitiesRange f bnr r fuel = .outOfBounds ∧
      ∀ e : ε, FetchEntitiesRange f bnr r fuel ≠ .err e) := by
  obtain ⟨hin, hout⟩ := fetchRange_bulk_eval f bnr r fuel fp tr allE hfp hlen
    h1 h2 h3 hall
  constructor
  · intro hle
    refine ⟨hin hle, ?_⟩
    intro e he
    rw [hin hle] at he
    exact FetchOutcome.noConfusion he
  · intro hgt
    refine ⟨hout hgt, ?_⟩
    intro e he
    rw [hout hgt] at he
    exact FetchOutcome.noConfusion he

/-- Witness for C2: a range of length 101 over a collection of only 5
entities: the slice is out of bounds (a panic, not an error value). -/
theorem fetchRange_slice_unchecked_witness :
    FetchEntitiesRange
        (⟨(0, none), fun _ => .error (),
          some (fun page _ => if page = 1 then .ok [1, 2, 3, 4, 5] else .ok [])⟩
          : EntityFetcherImpl Unit Nat)
        (fun n => ⟨n, n⟩) ⟨1, 101⟩ 3 = .outOfBounds := by
  have h := fetchRange_slice_unchecked
    (⟨(0, none), fun _ => .error (),
      some (fun page _ => if page = 1 then .ok [1, 2, 3, 4, 5] else .ok [])⟩
      : EntityFetcherImpl Unit Nat)
    (fun n => ⟨n, n⟩) ⟨1, 101⟩ 3
    (fun page _ => if page = 1 then .ok [1, 2, 3, 4, 5] else .ok [])
    [(1, 10000), (2, 10000)] [1, 2, 3, 4, 5]
    rfl (by decide) (by decide) (by decide) (by decide) (by decide)
  exact (h.2 (by decide)).1

/-- **C1.** For every `ClosedRange` `R` with `Len(R) > 100` and a
configured bulk-page collaborator, assuming the density precondition —
the sorted full collection holds at zero-based position `i` the entity
with id `i+1`, and the entity with id `R.End` is present —
`FetchEntitiesRange` returns exactly the contiguous sub-sequence of the
full collection sorted ascending by `BlockNumRange().Start`, taken at
zero-based offset `R.Start-1` with length `Len(R)`: that slice carries
precisely the ids `R.Start, …, R.End` in order. -/
theorem fetchRange_bulk_returns_sorted_slice (f : EntityFetcherImpl ε α)
    (bnr : α → ClosedRange) (entityId : α → Nat) (r : ClosedRange) (fuel : Nat)
    (fp : Nat → Nat → Except ε (List α)) (tr : List (Nat × Nat)) (allE : List α)
    (hfp : f.fetchEntitiesPage = some fp) (hlen : 100 < r.Len)
    (h1 : 1 ≤ r.Start) (h2 : r.Start ≤ r.End) (h3 : r.End < 2 ^ 64)
    (hall : FetchAllEntities bnr fp fuel = (tr, .ok allE))
    (hdense : ∀ (i : Nat) (hi : i < allE.length), entityId allE[i] = i + 1)
    (hcov : ∃ x ∈ allE, entityId x = r.End) :
    FetchEntitiesRange f bnr r fuel = .ok ((allE.drop (r.Start - 1)).take r.Len) ∧
    ((allE.drop (r.Start - 1)).take r.Len).map entityId =
      List.range' r.Start r.Len ∧
    allE.Pairwise (fun e1 e2 => (bnr e1).Start ≤ (bnr e2).Start) := by
  have hLen : r.Len = r.End - r.Start + 1 := rfl
  obtain ⟨x, hx, hid⟩ := hcov
  obtain ⟨i, hi, hxi⟩ := List.mem_iff_getElem.mp hx
  have hEnd : r.End ≤ allE.length := by
    have hd := hdense i hi
    rw [hxi, hid] at hd
    omega
  have hle : r.Start - 1 + r.Len ≤ allE.length := by omega
  refine ⟨(fetchRange_bulk_eval f bnr r fuel fp tr allE hfp hlen h1 h2 h3 hall).1 hle,
    ?_, fetchAllEntities_ok_pairwise bnr fp fuel tr allE hall⟩
  apply List.ext_getElem
  · simp only [List.length_map, List.length_take, List.length_drop,
      List.length_range']
    omega
  · intro j hj1 hj2
    have hjlen : j < r.Len := by
      simpa only [List.length_range'] using hj2
    have hb : r.Start - 1 + j < allE.length := by omega
    rw [List.getElem_map, List.getElem_take, List.getElem_drop,
      hdense (r.Start - 1 + j) hb, List.getElem_range']
    omega

set_option maxRecDepth 40000 in
/-- Witness for C1: the range `[1, 101]` over a dense 101-entity
collection delivered in one page: the result is the whole sorted
collection. -/
theorem fetchRange_bulk_returns_sorted_slice_witness :
    FetchEntitiesRange
        (⟨(0, none), fun _ => .error (),
          some (fun page _ => if page = 1 then .ok (List.range' 1 101) else .ok [])⟩
          : EntityFetcherImpl Unit Nat)
        (fun n => ⟨n, n⟩) ⟨1, 101⟩ 3 = .ok (List.range' 1 101) := by
  have h := fetchRange_bulk_returns_sorted_slice
    (⟨(0, none), fun _ => .error (),
      some (fun page _ => if page = 1 then .ok (List.range' 1 101) else .ok [])⟩
      : EntityFetcherImpl Unit Nat)
    (fun n => ⟨n, n⟩) (fun n => n) ⟨1, 101⟩ 3
    (fun page _ => if page = 1 then .ok (List.range' 1 101) else .ok [])
    [(1, 10000), (2, 10000)] (List.range' 1 101)
    rfl (by decide) (by decide) (by decide) (by decide) (by decide)
    (by decide) ⟨101, by decide, by decide⟩
  rw [h.1]
  rfl

/-- **C9.** `FetchLastEntityId` returns the collaborator's id converted
from `int64` to `uint64` modulo `2^64` — a nonnegative id is preserved, a
negative id gains `2^64` and so lands at `2^63` or above — and returns
the converted id alongside the collaborator's error value, whatever that
error is (the id result is not zeroed on error). -/
theorem fetchLastEntityId_conversion (f : EntityFetcherImpl ε α)
    (h : -2 ^ 63 ≤ f.fetchLastEntityId.1 ∧ f.fetchLastEntityId.1 < 2 ^ 63) :
    (FetchLastEntityId f).2 = f.fetchLastEntityId.2 ∧
    ((FetchLastEntityId f).1 : Int) = f.fetchLastEntityId.1 % 2 ^ 64 ∧
    (0 ≤ f.fetchLastEntityId.1 →
      ((FetchLastEntityId f).1 : Int) = f.fetchLastEntityId.1) ∧
    (f.fetchLastEntityId.1 < 0 →
      ((FetchLastEntityId f).1 : Int) = f.fetchLastEntityId.1 + 2 ^ 64 ∧
      2 ^ 63 ≤ (FetchLastEntityId f).1) := by
  have hmod : ((FetchLastEntityId f).1 : Int) = f.fetchLastEntityId.1 % 2 ^ 64 := by
    show ((uint64OfInt64 f.fetchLastEntityId.1 : Nat) : Int) = _
    unfold uint64OfInt64
    rw [Int.toNat_of_nonneg (Int.emod_nonneg _ (by norm_num))]
  refine ⟨rfl, hmod, ?_, ?_⟩
  · intro hpos
    rw [hmod]
    omega
  · intro hneg
    constructor
    · rw [hmod]
      omega
    · have := hmod
      omega

/-- Witness for C9: a collaborator answering `(-5, some error)`: the id
comes back as `2^64 - 5` (at least `2^63`) next to the error. -/
theorem fetchLastEntityId_conversion_witness :
    2 ^ 63 ≤ (FetchLastEntityId
      (⟨(-5, some ()), fun _ => .error (), none⟩ : EntityFetcherImpl Unit Nat)).1 ∧
    (FetchLastEntityId
      (⟨(-5, some ()), fun _ => .error (), none⟩ : EntityFetcherImpl Unit Nat)).2 =
      some () := by
  have h := fetchLastEntityId_conversion
    (⟨(-5, some ()), fun _ => .error (), none⟩ : EntityFetcherImpl Unit Nat)
    (by constructor <;> decide)
  exact ⟨(h.2.2.2 (by decide)).2, h.1⟩

end Proofs

end EntityFetcher

namespace WithdrawalCodec

/-- The `types.Withdrawal` record marshalled in `src/unnamed/part_000`:
`Index`, `Validator`, `Amount` are `uint64`; `Address` is a fixed-length
20-byte value, modelled as a list of bytes. -/
structure Withdrawal where
  Index : Nat
  Validator : Nat
  Address : List Nat
  Amount : Nat
deriving DecidableEq, Repr

/-- A well-formed record: the `uint64` fields fit in 64 bits and the
address is 20 bytes. -/
def Withdrawal.WF (w : Withdrawal) : Prop :=
  w.Index < 2 ^ 64 ∧ w.Validator < 2 ^ 64 ∧ w.Amount < 2 ^ 64 ∧
    w.Address.length = 20 ∧ ∀ b ∈ w.Address, b < 256

/-- Lowercase hex digit character for a value below 16. -/
def hexChar (d : Nat) : Char :=
  if d < 10 then Char.ofNat (48 + d) else Char.ofNat (97 + (d - 10))

/-- Value of a hex digit character (either case), `none` for a non-digit. -/
def hexDigitVal (c : Char) : Option Nat :=
  if 48 ≤ c.toNat ∧ c.toNat ≤ 57 then some (c.toNat - 48)
  else if 97 ≤ c.toNat ∧ c.toNat ≤ 102 then some (c.toNat - 97 + 10)
  else if 65 ≤ c.toNat ∧ c.toNat ≤ 70 then some (c.toNat - 65 + 10)
  else none

/-- Hex digits of `n`, least significant first (`[]` for 0); `fuel`
bounds the digit count (64 suffices for every `uint64`). -/
def toHexRevAux : Nat → Nat → List Char
  | 0, _ => []
  | fuel + 1, n => if n = 0 then [] else hexChar (n % 16) :: toHexRevAux fuel (n / 16)

/-- Value of a least-significant-first hex digit list. -/
def decodeRev : List Char → Option Nat
  | [] => some 0
  | c :: cs =>
    match hexDigitVal c, decodeRev cs with
    | some v, some rest => some (v + 16 * rest)
    | _, _ => none

/-- Modelled from the spec: the wire form of a 64-bit unsigned integer,
"a hex-prefixed quantity string" (the `hexutil.Uint64` codec is not under
`src/`): `0x` followed by the minimal lowercase hex digits. -/
def encodeQuantity (n : Nat) : String :=
  String.mk ('0' :: 'x' :: (if n = 0 then ['0'] else (toHexRevAux 64 n).reverse))

/-- Modelled from the spec: decoding a hex-prefixed quantity string into a
64-bit unsigned integer; a malformed value (missing `0x` prefix, no
digits, a non-hex digit, or a value not fitting 64 bits) is a decode
error (`none`). -/
def decodeQuantity (s : String) : Option Nat :=
  match s.data with
  | '0' :: 'x' :: rest =>
    if rest = [] then none
    else
      match decodeRev rest.reverse with
      | some v => if v < 2 ^ 64 then some v else none
      | none => none
  | _ => none

/-- Two-character hex form of one byte. -/
def byteToHex (b : Nat) : List Char := [hexChar (b / 16), hexChar (b % 16)]

/-- Byte list from pairs of hex digit characters; an odd-length or
non-hex input is a decode error. -/
def decodeHexBytes : List Char → Option (List Nat)
  | [] => some []
  | c1 :: c2 :: rest =>
    match hexDigitVal c1, hexDigitVal c2, decodeHexBytes rest with
    | some h, some l, some bs => some ((16 * h + l) :: bs)
    | _, _, _ => none
  | [_] => none

/-- Modelled from the spec: the wire form of the address, "a fixed-length
byte string encoded as hex" (the `common.Address` codec is not under
`src/`): `0x` followed by two lowercase hex digits per byte. -/
def encodeAddress (bs : List Nat) : String :=
  String.mk ('0' :: 'x' :: (bs.map byteToHex).flatten)

/-- Modelled from the spec: decoding a fixed-length (20-byte) hex address
string; a malformed value (missing `0x` prefix, wrong length, or a
non-hex digit) is a decode error (`none`). -/
def decodeAddress (s : String) : Option (List Nat) :=
  match s.data with
  | '0' :: 'x' :: rest => if rest.length = 40 then decodeHexBytes rest else none
  | _ => none

/-- `Withdrawal.MarshalJSON` from `src/unnamed/part_000`, at the level of
the produced JSON object: all four fields are always emitted, each as a
string (quantity strings for the `hexutil.Uint64` fields, a fixed-length
hex string for the address).  The object is a key/value list. -/
def Withdrawal.MarshalJSON (w : Withdrawal) : List (String × String) :=
  [("index", encodeQuantity w.Index),
   ("validatorIndex", encodeQuantity w.Validator),
   ("address", encodeAddress w.Address),
   ("amount", encodeQuantity w.Amount)]

/-- One optional field of the intermediate decode struct: a missing key
decodes to `none` (the `nil` pointer), a present but malformed value is a
decode error. -/
def decodeField (dec : String → Option β) (key : String)
    (input : List (String × String)) : Except Unit (Option β) :=
  match input.lookup key with
  | none => .ok none
  | some s =>
    match dec s with
    | some v => .ok (some v)
    | none => .error ()

/-- `Withdrawal.UnmarshalJSON` from `src/unnamed/part_000`, over a JSON
object modelled as a key/value list of string-valued fields: decode the
four optional fields into the intermediate struct (any malformed field
aborts with an error before any assignment), then overwrite exactly the
fields whose key was present, keeping the target's prior value for the
rest. -/
def Withdrawal.UnmarshalJSON (input : List (String × String)) (w : Withdrawal) :
    Except Unit Withdrawal := do
  let decIndex ← decodeField decodeQuantity "index" input
  let decValidator ← decodeField decodeQuantity "validatorIndex" input
  let decAddress ← decodeField decodeAddress "address" input
  let decAmount ← decodeField decodeQuantity "amount" input
  let w1 := match decIndex with
    | some v => { w with Index := v }
    | none => w
  let w2 := match decValidator with
    | some v => { w1 with Validator := v }
    | none => w1
  let w3 := match decAddress with
    | some v => { w2 with Address := v }
    | none => w2
  let w4 := match decAmount with
    | some v => { w3 with Amount := v }
    | none => w3
  return w4

namespace Proofs

theorem except_bind_ok (a : γ) (g : γ → Except σ δ) :
    ((Except.ok a : Except σ γ) >>= g) = g a := rfl

theorem except_bind_error (e : σ) (g : γ → Except σ δ) :
    ((Except.error e : Except σ γ) >>= g) = .error e := rfl

/-- `hexChar` and `hexDigitVal` are inverse on digit values. -/
theorem hexDigitVal_hexChar : ∀ d, d < 16 → hexDigitVal (hexChar d) = some d := by
  decide

/-- Decoding the little-endian hex digits of `n` gives back `n`. -/
theorem decodeRev_toHexRevAux :
    ∀ (fuel n : Nat), n < 16 ^ fuel → decodeRev (toHexRevAux fuel n) = some n := by
  intro fuel
  induction fuel with
  | zero =>
    intro n h
    have h0 : n = 0 := by simpa using h
    subst h0
    rfl
  | succ fl ih =>
    intro n h
    by_cases h0 : n = 0
    · subst h0
      rfl
    · have hdiv : n / 16 < 16 ^ fl := by
        apply Nat.div_lt_of_lt_mul
        rw [pow_succ] at h
        omega
      have hv := hexDigitVal_hexChar (n % 16) (by omega)
      simp [toHexRevAux, h0, decodeRev, hv, ih (n / 16) hdiv]
      omega

theorem toHexRevAux_ne_nil (fuel n : Nat) (h0 : n ≠ 0) :
    toHexRevAux (fuel + 1) n ≠ [] := by
  simp [toHexRevAux, h0]

/-- Quantity round trip: decoding the encoding of any `uint64` value
yields the value back. -/
theorem decodeQuantity_encodeQuantity (n : Nat) (h : n < 2 ^ 64) :
    decodeQuantity (encodeQuantity n) = some n := by
  by_cases h0 : n = 0
  · subst h0
    rfl
  · have hne : toHexRevAux 64 n ≠ [] := toHexRevAux_ne_nil 63 n h0
    have hdec : decodeRev (toHexRevAux 64 n) = some n :=
      decodeRev_toHexRevAux 64 n (lt_of_lt_of_le h (by norm_num))
    simp [encodeQuantity, decodeQuantity, h0, List.reverse_reverse,
      List.reverse_eq_nil_iff, hne, hdec, h]
    omega

/-- Byte-pair round trip for hex byte strings. -/
theorem decodeHexBytes_encode :
    ∀ (bs : List Nat), (∀ b ∈ bs, b < 256) →
      decodeHexBytes ((bs.map byteToHex).flatten) = some bs := by
  intro bs
  induction bs with
  | nil => intro _; rfl
  | cons b bs ih =>
    intro h
    have hb : b < 256 := h b (List.mem_cons_self b bs)
    have h1 := hexDigitVal_hexChar (b / 16) (by omega)
    have h2 := hexDigitVal_hexChar (b % 16) (by omega)
    have ihs := ih (fun x hx => h x (List.mem_cons_of_mem b hx))
    simp [byteToHex, decodeHexBytes, h1, h2, ihs]
    omega

theorem flatten_byteToHex_length :
    ∀ (bs : List Nat), ((bs.map byteToHex).flatten).length = 2 * bs.length := by
  intro bs
  induction bs with
  | nil => rfl
  | cons b bs ih =>
    simp [byteToHex, ih]
    omega

/-- Address round trip: decoding the encoding of any 20-byte address
yields the bytes back. -/
theorem decodeAddress_encodeAddress (bs : List Nat) (hlen : bs.length = 20)
    (hb : ∀ b ∈ bs, b < 256) : decodeAddress (encodeAddress bs) = some bs := by
  have hl : ((bs.map byteToHex).flatten).length = 40 := by
    rw [flatten_byteToHex_length, hlen]
  simp [encodeAddress, decodeAddress, hl, decodeHexBytes_encode bs hb]

theorem marshal_lookup_index (w : Withdrawal) :
    (Withdrawal.MarshalJSON w).lookup "index" = some (encodeQuantity w.Index) := rfl

theorem marshal_lookup_validator (w : Withdrawal) :
    (Withdrawal.MarshalJSON w).lookup "validatorIndex" =
      some (encodeQuantity w.Validator) := rfl

theorem marshal_lookup_address (w : Withdrawal) :
    (Withdrawal.MarshalJSON w).lookup "address" =
      some (encodeAddress w.Address) := rfl

theorem marshal_lookup_amount (w : Withdrawal) :
    (Withdrawal.MarshalJSON w).lookup "amount" = some (encodeQuantity w.Amount) := rfl

theorem decodeField_of_lookup_none (dec : String → Option β) (key : String)
    (input : List (String × String)) (h : input.lookup key = none) :
    decodeField dec key input = .ok none := by
  unfold decodeField
  rw [h]

/-- Evaluation of `UnmarshalJSON` once the four field decodes are known:
each present field overwrites the target, each absent field keeps the
target's prior value. -/
theorem unmarshalJSON_eval (input : List (String × String)) (w : Withdrawal)
    (oI oV oA oM : _)
    (hI : decodeField decodeQuantity "index" input = .ok oI)
    (hV : decodeField decodeQuantity "validatorIndex" input = .ok oV)
    (hA : decodeField decodeAddress "address" input = .ok oA)
    (hM : decodeField decodeQuantity "amount" input = .ok oM) :
    Withdrawal.UnmarshalJSON input w =
      .ok ⟨oI.getD w.Index, oV.getD w.Validator, oA.getD w.Address,
        oM.getD w.Amount⟩ := by
  unfold Withdrawal.UnmarshalJSON
  rw [hI, hV, hA, hM]
  rcases oI with _ | vI <;> rcases oV with _ | vV <;> rcases oA with _ | vA <;>
    rcases oM with _ | vM <;> rfl

/-- **C8.** Decode after encode is the identity for every record with a
valid 20-byte address (`uint64` fields in range) — in particular for
`{index:1, validatorIndex:2, address:<20 bytes>, amount:5}` — and
decoding a payload from which the `amount` field is absent succeeds
without error and leaves `amount` at zero. -/
theorem withdrawal_roundtrip (w w0 : Withdrawal) (hwf : w.WF) :
    Withdrawal.UnmarshalJSON (Withdrawal.MarshalJSON w) w0 = .ok w ∧
    Withdrawal.UnmarshalJSON
        [("index", encodeQuantity w.Index),
         ("validatorIndex", encodeQuantity w.Validator),
         ("address", encodeAddress w.Address)]
        ⟨0, 0, List.replicate 20 0, 0⟩ =
      .ok ⟨w.Index, w.Validator, w.Address, 0⟩ := by
  obtain ⟨hIr, hVr, hMr, hL, hB⟩ := hwf
  constructor
  · rw [unmarshalJSON_eval (Withdrawal.MarshalJSON w) w0 (some w.Index)
      (some w.Validator) (some w.Address) (some w.Amount)
      (by simp [decodeField, marshal_lookup_index,
        decodeQuantity_encodeQuantity _ hIr])
      (by simp [decodeField, marshal_lookup_validator,
        decodeQuantity_encodeQuantity _ hVr])
      (by simp [decodeField, marshal_lookup_address,
        decodeAddress_encodeAddress _ hL hB])
      (by simp [decodeField, marshal_lookup_amount,
        decodeQuantity_encodeQuantity _ hMr])]
    rfl
  · rw [unmarshalJSON_eval _ _ (some w.Index) (some w.Validator) (some w.Address)
      none
      (by simp [decodeField, List.lookup, decodeQuantity_encodeQuantity _ hIr])
      (by simp [decodeField, List.lookup, decodeQuantity_encodeQuantity _ hVr])
      (by simp [decodeField, List.lookup, decodeAddress_encodeAddress _ hL hB])
      (by simp [decodeField, List.lookup])]
    rfl

/-- Witness for C8: the record `{index:1, validatorIndex:2,
address:<bytes 0..19>, amount:5}` round trips through the codec, from an
arbitrary prior target. -/
theorem withdrawal_roundtrip_witness :
    Withdrawal.UnmarshalJSON
        (Withdrawal.MarshalJSON ⟨1, 2, List.range 20, 5⟩) ⟨9, 9, [7], 9⟩ =
      .ok ⟨1, 2, List.range 20, 5⟩ :=
  (withdrawal_roundtrip ⟨1, 2, List.range 20, 5⟩ ⟨9, 9, [7], 9⟩
    (by unfold Withdrawal.WF; decide)).1

/-- **C10.** `UnmarshalJSON` mutates only the fields whose JSON keys are
present: a successful decode leaves every omitted field at the target's
prior value (so a missing field reads as zero only when the target was
zero-valued). -/
theorem unmarshal_frame (input : List (String × String)) (w0 w2 : Withdrawal)
    (h : Withdrawal.UnmarshalJSON input w0 = .ok w2) :
    (input.lookup "index" = none → w2.Index = w0.Index) ∧
    (input.lookup "validatorIndex" = none → w2.Validator = w0.Validator) ∧
    (input.lookup "address" = none → w2.Address = w0.Address) ∧
    (input.lookup "amount" = none → w2.Amount = w0.Amount) := by
  rcases hI : decodeField decodeQuantity "index" input with eI | oI
  · unfold Withdrawal.UnmarshalJSON at h
    rw [hI, except_bind_error] at h
    exact Except.noConfusion h
  rcases hV : decodeField decodeQuantity "validatorIndex" input with eV | oV
  · unfold Withdrawal.UnmarshalJSON at h
    rw [hI, except_bind_ok, hV, except_bind_error] at h
    exact Except.noConfusion h
  rcases hA : decodeField decodeAddress "address" input with eA | oA
  · unfold Withdrawal.UnmarshalJSON at h
    rw [hI, except_bind_ok, hV, except_bind_ok, hA, except_bind_error] at h
    exact Except.noConfusion h
  rcases hM : decodeField decodeQuantity "amount" input with eM | oM
  · unfold Withdrawal.UnmarshalJSON at h
    rw [hI, except_bind_ok, hV, except_bind_ok, hA, except_bind_ok, hM,
      except_bind_error] at h
    exact Except.noConfusion h
  rw [unmarshalJSON_eval input w0 oI oV oA oM hI hV hA hM] at h
  injection h with hw
  refine ⟨?_, ?_, ?_, ?_⟩ <;> intro hnone
  · have hno := (decodeField_of_lookup_none decodeQuantity "index"
      input hnone).symm.trans hI
    injection hno with h2
    rw [← hw]
    show oI.getD w0.Index = w0.Index
    rw [← h2]
    rfl
  · have hno := (decodeField_of_lookup_none decodeQuantity "validatorIndex"
      input hnone).symm.trans hV
    injection hno with h2
    rw [← hw]
    show oV.getD w0.Validator = w0.Validator
    rw [← h2]
    rfl
  · have hno := (decodeField_of_lookup_none decodeAddress "address"
      input hnone).symm.trans hA
    injection hno with h2
    rw [← hw]
    show oA.getD w0.Address = w0.Address
    rw [← h2]
    rfl
  · have hno := (decodeField_of_lookup_none decodeQuantity "amount"
      input hnone).symm.trans hM
    injection hno with h2
    rw [← hw]
    show oM.getD w0.Amount = w0.Amount
    rw [← h2]
    rfl

/-- Witness for C10: decoding a payload holding only `amount` into a
target with non-zero prior fields keeps the prior `index`,
`validatorIndex` and `address`. -/
theorem unmarshal_frame_witness :
    (⟨5, 6, [1, 2], 42⟩ : Withdrawal).Index = 5 ∧
    (⟨5, 6, [1, 2], 42⟩ : Withdrawal).Validator = 6 ∧
    (⟨5, 6, [1, 2], 42⟩ : Withdrawal).Address = [1, 2] := by
  have h := unmarshal_frame [("amount", "0x2a")] ⟨5, 6, [1, 2], 9⟩
    ⟨5, 6, [1, 2], 42⟩ (by rfl)
  exact ⟨h.1 rfl, h.2.1 rfl, h.2.2.1 rfl⟩

end Proofs

end WithdrawalCodec
